import Mathlib

/-!
Verification of the label-transition reporting script in
`src/bin/gitlab_exporter.py`.

Modelling conventions (shallow embedding):
* Timestamps ("instants") are modelled as seconds since the Unix epoch, a
  `Nat`.  `parse_datetime` in the source merely converts the provider's
  ISO-8601 string into such an instant; the embedding works with instants
  directly.
* Python `None` becomes `Option.none`; the datetime values stored in the
  optional pairs are always truthy in Python, so the Python truthiness tests
  `start_datetime and end_datetime` correspond to `Option.isSome`.
* Spreadsheet cell values are a `Cell` inductive: Python strings, floats
  (modelled as `ℚ`, all arithmetic in the script being exact) and the integer
  issue number.  Python truthiness of a cell (used by `any(issue_values)`)
  is `Cell.truthy`.
* `datetime.strftime("%m/%d/%Y %H:%M:%S")` is implemented over epoch seconds
  with the standard civil-from-days calendar conversion.
-/

/-! ## Labels and transitions (source lines 11-32) -/

def LABEL_DOING : String := "status::Doing"

def LABEL_REVIEW : String := "status::Review"

def LABEL_READY_FOR_QA : String := "status::Ready for Final QA"

def LABEL_WAITING_FOR_PROD : String := "status::Waiting for PROD"

def LABEL_RELEASED : String := "status::Released"

/-- The `LABELS` dict of the source: recognized label names mapped to their
display names. -/
def LABELS : List (String × String) :=
  [(LABEL_DOING, "Doing"),
   (LABEL_REVIEW, "Review"),
   (LABEL_READY_FOR_QA, "QA"),
   (LABEL_WAITING_FOR_PROD, "Waiting for Prod"),
   (LABEL_RELEASED, "Released")]

/-- `LABELS.keys()` of the source. -/
def LABELS_keys : List String := LABELS.map Prod.fst

/-- Label transitions we care about, `(starting_label, final_label)`. -/
def LABEL_TRANSITIONS : List (String × String) :=
  [(LABEL_DOING, LABEL_REVIEW),
   (LABEL_REVIEW, LABEL_READY_FOR_QA),
   (LABEL_READY_FOR_QA, LABEL_WAITING_FOR_PROD),
   (LABEL_WAITING_FOR_PROD, LABEL_RELEASED),
   (LABEL_DOING, LABEL_RELEASED)]

/-! ## Data model -/

/-- An instant: seconds since the Unix epoch. -/
abbrev Timestamp := Nat

/-- A raw resource-label event as returned by the provider: a nullable label
descriptor carrying a name, and a creation instant (the source's
`parse_datetime(event.created_at)` already applied, see module docstring). -/
structure RawEvent where
  label : Option String
  created_at : Timestamp
deriving DecidableEq, Repr

/-- A normalized label event: `(label_name, instant)` as built by the list
comprehension in `find_issue_dates_changes`. -/
abbrev LabelEvent := String × Timestamp

/-! ## Datetime formatting (source lines 73-80) -/

/-- Zero-pad a number to two digits, as `strftime` does for
`%m %d %H %M %S`. -/
def pad2 (n : Nat) : String :=
  if n < 10 then "0" ++ toString n else toString n

/-- Civil calendar date `(year, month, day)` from a count of days since the
Unix epoch (standard era-based conversion; valid for all `z : Nat`). -/
def civilFromDays (z : Nat) : Nat × Nat × Nat :=
  let z' := z + 719468
  let era := z' / 146097
  let doe := z' % 146097
  let yoe := (doe - doe / 1460 + doe / 36524 - doe / 146096) / 365
  let y := yoe + era * 400
  let doy := doe - (365 * yoe + yoe / 4 - yoe / 100)
  let mp := (5 * doy + 2) / 153
  let d := doy - (153 * mp + 2) / 5 + 1
  let m := if mp < 10 then mp + 3 else mp - 9
  (if m ≤ 2 then y + 1 else y, m, d)

/-- `format_datetime_for_gsheet` of the source, on a present datetime:
`strftime("%m/%d/%Y %H:%M:%S")` over an epoch-seconds instant.  (The `None`
branch of the source function is the `Option.map` at its call sites; in the
row builder the arguments are never `None`.) -/
def format_datetime_for_gsheet (t : Timestamp) : String :=
  pad2 (civilFromDays (t / 86400)).2.1 ++ "/" ++
  pad2 (civilFromDays (t / 86400)).2.2 ++ "/" ++
  toString (civilFromDays (t / 86400)).1 ++ " " ++
  pad2 (t % 86400 / 3600) ++ ":" ++
  pad2 (t % 86400 / 60 % 60) ++ ":" ++
  pad2 (t % 86400 % 60)

/-! ## TransitionDetector: `find_events_dates_changes` (source lines 98-117) -/

/-- The loop of `find_events_dates_changes`: `start` is the mutable
`start_datetime` accumulator; the function returns as soon as the final
label is seen (`break`). -/
def fedc_loop (starting_label final_label : String) :
    List LabelEvent → Option Timestamp → Option Timestamp × Option Timestamp
  | [], start => (start, none)
  | (label, created_at) :: rest, start =>
      if label = final_label then
        (start, some created_at)
      else if label = starting_label then
        fedc_loop starting_label final_label rest (some created_at)
      else
        fedc_loop starting_label final_label rest start

/-- Given a list of sorted label events, return
`(start_datetime, end_datetime)`: the latest instant at which
`starting_label` was applied before `final_label` was applied, and the
earliest instant at which `final_label` was applied. -/
def find_events_dates_changes (events : List LabelEvent)
    (starting_label final_label : String) :
    Option Timestamp × Option Timestamp :=
  fedc_loop starting_label final_label events none

/-! ## EventNormalizer (source lines 131-139) -/

/-- The filtering list comprehension of `find_issue_dates_changes`: keep the
events whose label descriptor is present and whose name is in
`LABELS.keys()`, projecting to `(name, created_at)`. -/
def keep_event (e : RawEvent) : Option LabelEvent :=
  match e.label with
  | none => none
  | some name => if name ∈ LABELS_keys then some (name, e.created_at) else none

/-- The normalization step of `find_issue_dates_changes`: filter the raw
events to the recognized labels, then sort by created date. -/
def normalize_events (raw : List RawEvent) : List LabelEvent :=
  (raw.filterMap keep_event).mergeSort (fun a b => a.2 ≤ b.2)

/-! ## WindowFilter (source lines 146-152) -/

/-- The window filter inlined in `find_issue_dates_changes`: if both ends of
the pair are present and the end instant does not satisfy
`start_date ≤ end < end_date`, null out both fields; otherwise return the
pair unchanged. -/
def window_filter (p : Option Timestamp × Option Timestamp)
    (start_date end_date : Timestamp) :
    Option Timestamp × Option Timestamp :=
  match p with
  | (some s, some e) =>
      if ¬ (start_date ≤ e ∧ e < end_date) then (none, none) else (some s, some e)
  | q => q

/-- `find_issue_dates_changes` (source lines 120-156), taking the issue's raw
label events: normalize, then for each configured label transition detect the
transition and apply the window filter. -/
def find_issue_dates_changes (raw : List RawEvent)
    (start_date end_date : Timestamp) :
    List (Option Timestamp × Option Timestamp) :=
  let events := normalize_events raw
  LABEL_TRANSITIONS.map (fun lt =>
    window_filter (find_events_dates_changes events lt.1 lt.2)
      start_date end_date)

/-! ## Cells and rows (source lines 159-207) -/

/-- A spreadsheet cell value: a Python string, float (exact, so `ℚ`) or int. -/
inductive Cell where
  | str (s : String)
  | num (q : ℚ)
  | int (n : Nat)
deriving DecidableEq, Repr

/-- Python truthiness of a cell value, as used by `any(issue_values)`:
`""`, `0.0` and `0` are falsy. -/
def Cell.truthy : Cell → Bool
  | .str s => s ≠ ""
  | .num q => q ≠ 0
  | .int n => n ≠ 0

/-- The body of the per-transition loop of `find_project_date_changes`: three
blank cells when either end is absent, otherwise the two formatted instants
and `(end - start).total_seconds() / (3600 * 24)`. -/
def date_change_cells (p : Option Timestamp × Option Timestamp) : List Cell :=
  match p with
  | (some s, some e) =>
      [Cell.str (format_datetime_for_gsheet s),
       Cell.str (format_datetime_for_gsheet e),
       Cell.num (((e : ℚ) - (s : ℚ)) / (3600 * 24))]
  | _ => [Cell.str "", Cell.str "", Cell.str ""]

/-- The `issue_values` accumulation loop of `find_project_date_changes`. -/
def build_issue_values (date_changes : List (Option Timestamp × Option Timestamp)) :
    List Cell :=
  date_changes.foldl (fun acc p => acc ++ date_change_cells p) []

/-- An issue: internal storage id `id`, user-facing number `iid`, and its raw
resource-label events. -/
structure Issue where
  id : Nat
  iid : Nat
  events : List RawEvent
deriving DecidableEq, Repr

/-- `find_project_date_changes` (source lines 159-207), taking the project's
issues: build each issue's row of cells, skip rows whose values are all
falsy, and prepend the issue number `iid` to kept rows. -/
def find_project_date_changes (issues : List Issue)
    (start_date end_date : Timestamp) : List (List Cell) :=
  issues.foldl
    (fun values issue =>
      let issue_values :=
        build_issue_values (find_issue_dates_changes issue.events start_date end_date)
      if issue_values.any Cell.truthy then
        values ++ [Cell.int issue.iid :: issue_values]
      else values)
    []

/-! ## Report assembly (source lines 222-245) -/

/-- A configured project: display name and issues. -/
structure Project where
  name : String
  issues : List Issue

/-- The header row built by `generate_label_report`. -/
def report_header : List Cell :=
  LABEL_TRANSITIONS.foldl
    (fun h lt =>
      h ++ [Cell.str ((LABELS.lookup lt.1).getD ""),
            Cell.str ((LABELS.lookup lt.2).getD ""),
            Cell.str "Nb. days"])
    [Cell.str "Project", Cell.str "Issue #"]

/-- The `values` table assembled by `generate_label_report`: the header, then
for each project its rows with the project name prepended. -/
def generate_label_report_values (projects : List Project)
    (start_date end_date : Timestamp) : List (List Cell) :=
  projects.foldl
    (fun values p =>
      values ++
        (find_project_date_changes p.issues start_date end_date).map
          (fun v => Cell.str p.name :: v))
    [report_header]

/-! ## Spreadsheet write range (source lines 83-95) -/

/-- `string.ascii_uppercase`. -/
def ascii_uppercase : String := "ABCDEFGHIJKLMNOPQRSTUVWXYZ"

/-- The end cell of the update range computed by `write_to_gsheet` for a
table of `values`: the column letter `string.ascii_uppercase[nb_cols]` (an
out-of-range index, like `values[0]` on an empty table, raises in Python:
`none` here) and the row number `nb_rows`. -/
def write_to_gsheet_range (values : List (List Cell)) : Option (Char × Nat) :=
  match values with
  | [] => none
  | v0 :: _ =>
      (ascii_uppercase.toList.get? v0.length).map (fun c => (c, values.length))

/-- Number of columns spanned by an `A1:<c><r>` range: the end column's
alphabet index plus one. -/
def range_cols_spanned (c : Char) : Nat := c.toNat - 'A'.toNat + 1

/-- Number of rows spanned by an `A1:<c><r>` range. -/
def range_rows_spanned (r : Nat) : Nat := r

/-! ## CLI defaults (source lines 210-222) -/

/-- Default of the `--start-date` option, as a calendar day number:
`date.today() - timedelta(days=30)`. -/
def start_date_default (today : Int) : Int := today - 30

/-- Default of the `--end-date` option: `date.today()`. -/
def end_date_default (today : Int) : Int := today

/-! ## Specification-side characterizations (used only to state claims) -/

/-- The instant of the latest occurrence of label `sl` in `l`: the last
element of `l` carrying `sl` (in a timestamp-sorted list this is the
occurrence with the greatest timestamp). -/
def latest_label_ts (l : List LabelEvent) (sl : String) : Option Timestamp :=
  ((l.filter (fun e => e.1 = sl)).getLast?).map Prod.snd

/-- The claim's description of the transition detector: `end` is the instant
of the first occurrence of the final label in scan order (the head of
`dropWhile`), and `start` is the instant of the latest occurrence of the
starting label among the events strictly before that terminating event (the
whole sequence when the final label never occurs, since then `takeWhile`
keeps everything). -/
def fedc_spec (events : List LabelEvent) (starting_label final_label : String) :
    Option Timestamp × Option Timestamp :=
  (latest_label_ts (events.takeWhile (fun e => e.1 ≠ final_label)) starting_label,
   ((events.dropWhile (fun e => e.1 ≠ final_label)).head?).map Prod.snd)

/-! ## Helper lemmas -/

theorem opt_map_or {α β : Type} (f : α → β) (o o' : Option α) :
    (o.or o').map f = (o.map f).or (o'.map f) := by
  cases o <;> rfl

theorem getLast?_cons_or {α : Type} (a : α) (l : List α) :
    (a :: l).getLast? = l.getLast?.or (some a) := by
  induction l generalizing a with
  | nil => rfl
  | cons b l' ih =>
      rw [List.getLast?_cons_cons, ih b, Option.or_assoc]
      rfl

theorem mem_of_getLast?_eq {α : Type} {l : List α} {a : α}
    (h : l.getLast? = some a) : a ∈ l := by
  induction l with
  | nil => simp [List.getLast?] at h
  | cons b l' ih =>
      rw [getLast?_cons_or] at h
      cases hl : l'.getLast? with
      | none => rw [hl] at h; simp at h; simp [h]
      | some c =>
          rw [hl] at h
          simp at h
          exact List.mem_cons_of_mem b (ih (by rw [hl, h]))

theorem pairwise_rel_getLast {α : Type} {R : α → α → Prop} :
    ∀ (l : List α) (x : α), l.Pairwise R → l.getLast? = some x →
      ∀ e ∈ l, e = x ∨ R e x := by
  intro l
  induction l with
  | nil => intro x _ hl; simp at hl
  | cons a l' ih =>
      intro x hp hl e he
      cases l' with
      | nil =>
          simp at hl he
          subst he
          exact Or.inl hl
      | cons b l'' =>
          rw [List.getLast?_cons_cons] at hl
          rw [List.pairwise_cons] at hp
          rcases List.mem_cons.mp he with rfl | he'
          · right; exact hp.1 x (mem_of_getLast?_eq hl)
          · exact ih x hp.2 hl e he'

theorem latest_cons_self (t : Timestamp) (X : List LabelEvent) (sl : String) :
    latest_label_ts ((sl, t) :: X) sl = (latest_label_ts X sl).or (some t) := by
  unfold latest_label_ts
  simp [List.filter_cons, getLast?_cons_or, opt_map_or]

theorem latest_cons_other (l : String) (t : Timestamp) (X : List LabelEvent)
    (sl : String) (h : ¬ l = sl) :
    latest_label_ts ((l, t) :: X) sl = latest_label_ts X sl := by
  unfold latest_label_ts
  rw [List.filter_cons]
  simp [h]

/-- The loop of the transition detector, characterized: the accumulator is
superseded by the latest starting-label occurrence before the first
final-label occurrence, and the result's second component is the instant of
that first final-label occurrence. -/
theorem fedc_loop_eq (sl fl : String) (events : List LabelEvent)
    (acc : Option Timestamp) :
    fedc_loop sl fl events acc =
      ((latest_label_ts (events.takeWhile (fun e => e.1 ≠ fl)) sl).or acc,
       ((events.dropWhile (fun e => e.1 ≠ fl)).head?).map Prod.snd) := by
  induction events generalizing acc with
  | nil => simp [fedc_loop, latest_label_ts]
  | cons ev rest ih =>
      obtain ⟨l, t⟩ := ev
      by_cases hfl : l = fl
      · simp [fedc_loop, hfl, List.takeWhile_cons, List.dropWhile_cons, latest_label_ts]
      · by_cases hsl : l = sl
        · subst hsl
          rw [show fedc_loop l fl ((l, t) :: rest) acc
                = fedc_loop l fl rest (some t) by simp [fedc_loop, hfl]]
          rw [ih (some t)]
          rw [List.takeWhile_cons, List.dropWhile_cons]
          simp only [ne_eq, hfl, not_false_eq_true, decide_True, if_true]
          rw [latest_cons_self, Option.or_assoc]
          rfl
        · rw [show fedc_loop sl fl ((l, t) :: rest) acc
                = fedc_loop sl fl rest acc by simp [fedc_loop, hfl, hsl]]
          rw [ih acc]
          rw [List.takeWhile_cons, List.dropWhile_cons]
          simp only [ne_eq, hfl, not_false_eq_true, decide_True, if_true]
          rw [latest_cons_other l t _ sl hsl]

theorem mem_of_head?_eq {α : Type} {l : List α} {a : α}
    (h : l.head? = some a) : a ∈ l := by
  cases l with
  | nil => simp at h
  | cons b l' => simp at h; simp [h]

/-- C1: for every event sequence sorted ascending by timestamp, the
transition detector agrees with `fedc_spec`: `end` is the instant of the
first final-label occurrence in scan order (ignoring everything after it)
and `start` is the instant of the latest starting-label occurrence among the
events strictly before that terminating event — over the entire sequence
when the final label never occurs, and absent when the starting label does
not occur in that region, so that when neither label occurs the result is
`(none, none)`.  The second conjunct makes "latest" precise: the returned
`start` is at least the timestamp of every starting-label occurrence in the
scanned region. -/
theorem c1_transition_detector (events : List LabelEvent) (sl fl : String)
    (hsorted : events.Pairwise (fun a b => a.2 ≤ b.2)) :
    find_events_dates_changes events sl fl = fedc_spec events sl fl ∧
    (∀ s, (find_events_dates_changes events sl fl).1 = some s →
      ∀ e ∈ events.takeWhile (fun x => x.1 ≠ fl), e.1 = sl → e.2 ≤ s) := by
  have hchar : find_events_dates_changes events sl fl = fedc_spec events sl fl := by
    rw [find_events_dates_changes, fedc_loop_eq, Option.or_none, fedc_spec]
  refine ⟨hchar, ?_⟩
  intro s hs e he hesl
  rw [hchar] at hs
  simp only [fedc_spec, latest_label_ts] at hs
  obtain ⟨x, hx, hxs⟩ := Option.map_eq_some'.mp hs
  have hpw1 : (events.takeWhile (fun x => x.1 ≠ fl)).Pairwise
      (fun a b : LabelEvent => a.2 ≤ b.2) :=
    List.Pairwise.sublist (List.takeWhile_sublist _) hsorted
  have hpw2 : ((events.takeWhile (fun x => x.1 ≠ fl)).filter
      (fun e => e.1 = sl)).Pairwise (fun a b : LabelEvent => a.2 ≤ b.2) :=
    List.Pairwise.sublist (List.filter_sublist _) hpw1
  have hef : e ∈ (events.takeWhile (fun x => x.1 ≠ fl)).filter
      (fun e => e.1 = sl) :=
    List.mem_filter.mpr ⟨he, by simp [hesl]⟩
  rcases pairwise_rel_getLast _ x hpw2 hx e hef with rfl | hle
  · exact le_of_eq hxs
  · exact hxs ▸ hle

/-- Witness for C1 on a concrete sorted sequence. -/
theorem c1_transition_detector_witness :
    find_events_dates_changes
        [("status::Doing", 5), ("status::Doing", 7), ("status::Review", 9),
         ("status::Doing", 10), ("status::Review", 11)]
        "status::Doing" "status::Review"
      = fedc_spec
        [("status::Doing", 5), ("status::Doing", 7), ("status::Review", 9),
         ("status::Doing", 10), ("status::Review", 11)]
        "status::Doing" "status::Review" :=
  (c1_transition_detector _ _ _ (by decide)).1

/-- C5: on a timestamp-sorted event sequence, whenever the transition
detector returns both a start and an end, the end instant is not earlier
than the start instant. -/
theorem c5_end_not_before_start (events : List LabelEvent) (sl fl : String)
    (s e : Timestamp)
    (hsorted : events.Pairwise (fun a b => a.2 ≤ b.2))
    (hs : (find_events_dates_changes events sl fl).1 = some s)
    (he : (find_events_dates_changes events sl fl).2 = some e) :
    s ≤ e := by
  simp only [find_events_dates_changes, fedc_loop_eq, Option.or_none] at hs he
  simp only [latest_label_ts] at hs
  obtain ⟨x, hx, hxs⟩ := Option.map_eq_some'.mp hs
  obtain ⟨ev, hev, heve⟩ := Option.map_eq_some'.mp he
  have hxmem : x ∈ events.takeWhile (fun e => e.1 ≠ fl) :=
    List.Sublist.mem (mem_of_getLast?_eq hx) (List.filter_sublist _)
  have hevmem : ev ∈ events.dropWhile (fun e => e.1 ≠ fl) :=
    mem_of_head?_eq hev
  have hsplit := List.takeWhile_append_dropWhile
    (fun e : LabelEvent => decide (e.1 ≠ fl)) events
  rw [← hsplit] at hsorted
  have hcross := (List.pairwise_append.mp hsorted).2.2 x hxmem ev hevmem
  rw [← hxs, ← heve]
  exact hcross

/-- Witness for C5 on a concrete sorted sequence. -/
theorem c5_end_not_before_start_witness : (5 : Timestamp) ≤ 9 :=
  c5_end_not_before_start [("status::Doing", 5), ("status::Review", 9)]
    "status::Doing" "status::Review" 5 9 (by decide) (by decide) (by decide)

/-- C2: the window filter keeps a fully-present pair unchanged exactly when
`start_date ≤ end < end_date`; when both fields are present and the end
falls outside the half-open window both fields are nulled (in particular at
`end = end_date` exactly), while `end = start_date` exactly is kept (for a
nonempty window); a pair with either field absent is returned exactly
as-is. -/
theorem c2_window_filter (start_date end_date : Timestamp) :
    (∀ s e : Timestamp, start_date ≤ e → e < end_date →
        window_filter (some s, some e) start_date end_date = (some s, some e)) ∧
    (∀ s e : Timestamp, ¬ (start_date ≤ e ∧ e < end_date) →
        window_filter (some s, some e) start_date end_date = (none, none)) ∧
    (∀ s : Timestamp,
        window_filter (some s, some end_date) start_date end_date
          = (none, none)) ∧
    (∀ s : Timestamp, start_date < end_date →
        window_filter (some s, some start_date) start_date end_date
          = (some s, some start_date)) ∧
    (∀ p : Option Timestamp × Option Timestamp, p.1 = none ∨ p.2 = none →
        window_filter p start_date end_date = p) := by
  refine ⟨?_, ?_, ?_, ?_, ?_⟩
  · intro s e h1 h2; simp [window_filter, h1, h2]
  · intro s e h; simp [window_filter, h]
  · intro s; simp [window_filter]
  · intro s h; simp [window_filter, h]
  · rintro ⟨p1, p2⟩ h
    rcases h with h | h
    · simp only at h; subst h; cases p2 <;> rfl
    · simp only at h; subst h; cases p1 <;> rfl

/-- Witness for C2: window `[0, 10)`, a kept pair, a nulled pair at the
upper bound, and an untouched half-absent pair. -/
theorem c2_window_filter_witness :
    window_filter (some 1, some 5) 0 10 = (some 1, some 5) ∧
    window_filter (some 1, some 10) 0 10 = (none, none) ∧
    window_filter (none, some 99) 0 10 = (none, some 99) :=
  ⟨(c2_window_filter 0 10).1 1 5 (by decide) (by decide),
   (c2_window_filter 0 10).2.2.1 1,
   (c2_window_filter 0 10).2.2.2.2 (none, some 99) (Or.inl rfl)⟩

/-- C3: the row-building loop emits, for a transition result with both ends
present, the two formatted instants followed by the elapsed-days cell
`(end - start)` in seconds divided by 86400; whenever either end is absent
it emits exactly three blank cells.  The concrete conjuncts check the
spec's example: 2024-01-01T00:00:00 (epoch 1704067200) to
2024-01-02T12:00:00 (epoch 1704196800) yields exactly 3/2 days. -/
theorem c3_elapsed_days :
    (∀ s e : Timestamp,
        date_change_cells (some s, some e) =
          [Cell.str (format_datetime_for_gsheet s),
           Cell.str (format_datetime_for_gsheet e),
           Cell.num (((e : ℚ) - (s : ℚ)) / 86400)]) ∧
    (∀ p : Option Timestamp × Option Timestamp, p.1 = none ∨ p.2 = none →
        date_change_cells p = [Cell.str "", Cell.str "", Cell.str ""]) ∧
    civilFromDays (1704067200 / 86400) = (2024, 1, 1) ∧
    civilFromDays (1704196800 / 86400) = (2024, 1, 2) ∧
    (1704196800 : Nat) % 86400 = 43200 ∧
    date_change_cells (some 1704067200, some 1704196800) =
      [Cell.str "01/01/2024 00:00:00", Cell.str "01/02/2024 12:00:00",
       Cell.num (3 / 2)] := by
  have hgen : ∀ s e : Timestamp,
      date_change_cells (some s, some e) =
        [Cell.str (format_datetime_for_gsheet s),
         Cell.str (format_datetime_for_gsheet e),
         Cell.num (((e : ℚ) - (s : ℚ)) / 86400)] := by
    intro s e; norm_num [date_change_cells]
  refine ⟨hgen, ?_, by decide, by decide, by decide, ?_⟩
  · rintro ⟨p1, p2⟩ h
    rcases h with h | h
    · simp only at h; subst h; cases p2 <;> rfl
    · simp only at h; subst h; cases p1 <;> rfl
  · rw [hgen]
    have h1 : format_datetime_for_gsheet 1704067200 = "01/01/2024 00:00:00" := by
      decide
    have h2 : format_datetime_for_gsheet 1704196800 = "01/02/2024 12:00:00" := by
      decide
    rw [h1, h2]
    norm_num

/-- Witness for C3: a half-absent pair yields three blank cells. -/
theorem c3_elapsed_days_witness :
    date_change_cells (some 5, none) = [Cell.str "", Cell.str "", Cell.str ""] :=
  c3_elapsed_days.2.1 (some 5, none) (Or.inr rfl)

/-- C6: the normalizer produces a sequence sorted ascending by timestamp
that is a permutation of exactly the projections of the raw events whose
label descriptor is present with a name in the fixed five-label recognized
set; `keep_event` maps such events to `(name, instant)` and drops every
event with an absent or unrecognized label, so dropped events never reach
the transition detector. -/
theorem c6_normalizer (raw : List RawEvent) :
    (normalize_events raw).Pairwise (fun a b => a.2 ≤ b.2) ∧
    (normalize_events raw).Perm (raw.filterMap keep_event) ∧
    (∀ (e : RawEvent) (name : String), e.label = some name →
        name ∈ LABELS_keys → keep_event e = some (name, e.created_at)) ∧
    (∀ e : RawEvent, e.label = none → keep_event e = none) ∧
    (∀ (e : RawEvent) (name : String), e.label = some name →
        name ∉ LABELS_keys → keep_event e = none) := by
  refine ⟨?_, ?_, ?_, ?_, ?_⟩
  · rw [normalize_events]
    have htrans : ∀ a b c : LabelEvent,
        decide (a.2 ≤ b.2) = true → decide (b.2 ≤ c.2) = true →
          decide (a.2 ≤ c.2) = true := by
      intro a b c hab hbc
      rw [decide_eq_true_eq] at hab hbc ⊢
      exact le_trans hab hbc
    have htotal : ∀ a b : LabelEvent,
        (decide (a.2 ≤ b.2) || decide (b.2 ≤ a.2)) = true := by
      intro a b
      simp only [Bool.or_eq_true, decide_eq_true_eq]
      exact le_total a.2 b.2
    refine List.Pairwise.imp ?_
      (List.sorted_mergeSort htrans htotal (raw.filterMap keep_event))
    intro a b hab
    simpa using hab
  · rw [normalize_events]
    exact List.mergeSort_perm _ _
  · intro e name h hm
    rw [keep_event, h]
    simp [hm]
  · intro e h
    rw [keep_event, h]
  · intro e name h hm
    rw [keep_event, h]
    simp [hm]

/-- Witness for C6: a recognized label is kept with its instant, an
unrecognized one and an absent one are dropped. -/
theorem c6_normalizer_witness :
    keep_event ⟨some "status::Doing", 5⟩ = some ("status::Doing", 5) ∧
    keep_event ⟨some "random", 6⟩ = none ∧
    keep_event ⟨none, 7⟩ = none :=
  ⟨(c6_normalizer []).2.2.1 ⟨some "status::Doing", 5⟩ "status::Doing" rfl
      (by decide),
   (c6_normalizer []).2.2.2.2 ⟨some "random", 6⟩ "random" rfl (by decide),
   (c6_normalizer []).2.2.2.1 ⟨none, 7⟩ rfl⟩

/-! ## Row truthiness: formatted instants are never the empty string -/

theorem format_datetime_ne_empty (t : Timestamp) :
    format_datetime_for_gsheet t ≠ "" := by
  intro h
  have hl := congrArg String.length h
  have hslash : ("/" : String).length = 1 := rfl
  have hempty : ("" : String).length = 0 := rfl
  simp only [format_datetime_for_gsheet, String.length_append, hslash,
    hempty] at hl
  omega

theorem truthy_ne_blank {c : Cell} (h : c.truthy = true) : c ≠ Cell.str "" := by
  intro heq
  rw [heq] at h
  simp [Cell.truthy] at h

theorem date_change_cells_truthy_of_ne_blank
    (p : Option Timestamp × Option Timestamp)
    (h : ∃ c ∈ date_change_cells p, c ≠ Cell.str "") :
    ∃ c ∈ date_change_cells p, c.truthy = true := by
  obtain ⟨c, hc, hcne⟩ := h
  rcases p with ⟨p1, p2⟩
  cases p1 with
  | none =>
      exfalso
      apply hcne
      have hdc : date_change_cells (none, p2)
          = [Cell.str "", Cell.str "", Cell.str ""] := by
        cases p2 <;> rfl
      rw [hdc] at hc
      simpa using hc
  | some s =>
      cases p2 with
      | none =>
          exfalso
          apply hcne
          have hdc : date_change_cells (some s, none)
              = [Cell.str "", Cell.str "", Cell.str ""] := rfl
          rw [hdc] at hc
          simpa using hc
      | some e =>
          refine ⟨Cell.str (format_datetime_for_gsheet s), ?_, ?_⟩
          · simp [date_change_cells]
          · simp [Cell.truthy, format_datetime_ne_empty s]

theorem foldl_append_eq {α β : Type} (f : α → List β) (l : List α)
    (init : List β) :
    l.foldl (fun acc x => acc ++ f x) init = init ++ (l.map f).flatten := by
  induction l generalizing init with
  | nil => simp
  | cons a l' ih => simp [ih, List.append_assoc]

theorem build_issue_values_any_truthy
    (dcs : List (Option Timestamp × Option Timestamp)) :
    (build_issue_values dcs).any Cell.truthy = true ↔
      ¬ (∀ c ∈ build_issue_values dcs, c = Cell.str "") := by
  constructor
  · intro h hall
    obtain ⟨c, hc, hct⟩ := List.any_eq_true.mp h
    rw [hall c hc] at hct
    simp [Cell.truthy] at hct
  · intro h
    rw [List.any_eq_true]
    push_neg at h
    obtain ⟨c, hc, hcne⟩ := h
    rw [build_issue_values, foldl_append_eq, List.nil_append] at hc
    obtain ⟨tl, htl, hctl⟩ := List.mem_flatten.mp hc
    obtain ⟨p, hp, rfl⟩ := List.mem_map.mp htl
    obtain ⟨c', hc', hct⟩ :=
      date_change_cells_truthy_of_ne_blank p ⟨c, hctl, hcne⟩
    refine ⟨c', ?_, hct⟩
    rw [build_issue_values, foldl_append_eq, List.nil_append]
    exact List.mem_flatten.mpr ⟨_, List.mem_map.mpr ⟨p, hp, rfl⟩, hc'⟩

/-- A row of cells is entirely blank exactly when each cell is the empty
string. -/
theorem all_blank_iff (l : List Cell) :
    (l.all (fun c => c = Cell.str "")) = true ↔ ∀ c ∈ l, c = Cell.str "" := by
  rw [List.all_eq_true]
  simp

/-- The project row builder characterized: it keeps exactly the issues
whose cell row is not entirely blank, prepending the issue number. -/
theorem find_project_date_changes_eq (issues : List Issue)
    (start_date end_date : Timestamp) :
    find_project_date_changes issues start_date end_date =
      issues.filterMap (fun i =>
        if (build_issue_values
            (find_issue_dates_changes i.events start_date end_date)).all
            (fun c => c = Cell.str "") then none
        else some (Cell.int i.iid ::
          build_issue_values
            (find_issue_dates_changes i.events start_date end_date))) := by
  rw [find_project_date_changes]
  suffices h : ∀ acc : List (List Cell),
      issues.foldl
        (fun values issue =>
          let issue_values :=
            build_issue_values
              (find_issue_dates_changes issue.events start_date end_date)
          if issue_values.any Cell.truthy then
            values ++ [Cell.int issue.iid :: issue_values]
          else values)
        acc
      = acc ++ issues.filterMap (fun i =>
          if (build_issue_values
              (find_issue_dates_changes i.events start_date end_date)).all
              (fun c => c = Cell.str "") then none
          else some (Cell.int i.iid ::
            build_issue_values
              (find_issue_dates_changes i.events start_date end_date))) by
    rw [h [], List.nil_append]
  induction issues with
  | nil => intro acc; simp
  | cons i rest ih =>
      intro acc
      rw [List.foldl_cons, List.filterMap_cons]
      by_cases hall : (build_issue_values
          (find_issue_dates_changes i.events start_date end_date)).all
          (fun c => c = Cell.str "") = true
      · have hany : ((build_issue_values
            (find_issue_dates_changes i.events start_date end_date)).any
              Cell.truthy) = false := by
          by_contra hne
          rw [Bool.not_eq_false] at hne
          exact (build_issue_values_any_truthy _).mp hne
            ((all_blank_iff _).mp hall)
        simp only [hany, Bool.false_eq_true, if_false, if_pos hall]
        exact ih acc
      · have hany : ((build_issue_values
            (find_issue_dates_changes i.events start_date end_date)).any
              Cell.truthy) = true :=
          (build_issue_values_any_truthy _).mpr
            (fun hb => hall ((all_blank_iff _).mpr hb))
        simp only [hany, if_true, if_neg hall]
        rw [ih (acc ++ [Cell.int i.iid ::
          build_issue_values
            (find_issue_dates_changes i.events start_date end_date)])]
        rw [List.append_assoc]
        rfl

/-- C4: after building the five triples for an issue, a row whose cells are
all blank is discarded entirely — the issue contributes nothing to the
table — while any issue with at least one non-blank cell is emitted with the
user-facing issue number `iid` prepended (the internal storage id `id` is
never used). -/
theorem c4_row_emission (issues : List Issue)
    (start_date end_date : Timestamp) :
    find_project_date_changes issues start_date end_date =
      issues.filterMap (fun i =>
        if (build_issue_values
            (find_issue_dates_changes i.events start_date end_date)).all
            (fun c => c = Cell.str "") then none
        else some (Cell.int i.iid ::
          build_issue_values
            (find_issue_dates_changes i.events start_date end_date))) :=
  find_project_date_changes_eq issues start_date end_date

/-! ## Row width (C10) -/

theorem date_change_cells_length (p : Option Timestamp × Option Timestamp) :
    (date_change_cells p).length = 3 := by
  rcases p with ⟨p1, p2⟩
  cases p1 <;> cases p2 <;> rfl

theorem build_issue_values_length
    (dcs : List (Option Timestamp × Option Timestamp)) :
    (build_issue_values dcs).length = 3 * dcs.length := by
  rw [build_issue_values, foldl_append_eq, List.nil_append,
    List.length_flatten, List.map_map]
  induction dcs with
  | nil => rfl
  | cons p rest ih =>
      simp only [List.map_cons, List.sum_cons, ih, Function.comp_apply,
        date_change_cells_length, List.length_cons]
      ring

theorem find_issue_dates_changes_length (raw : List RawEvent)
    (start_date end_date : Timestamp) :
    (find_issue_dates_changes raw start_date end_date).length = 5 := by
  rw [find_issue_dates_changes]
  simp [LABEL_TRANSITIONS]

/-- C10: the header row and every emitted data row of the assembled table
have exactly 17 cells (project name, issue number, then three cells for each
of the five configured transitions), so the table is rectangular. -/
theorem c10_row_width (projects : List Project)
    (start_date end_date : Timestamp) :
    ∀ row ∈ generate_label_report_values projects start_date end_date,
      row.length = 17 := by
  intro row hrow
  rw [generate_label_report_values, foldl_append_eq] at hrow
  rcases List.mem_append.mp hrow with h | h
  · have hr : row = report_header := by simpa using h
    rw [hr]
    rfl
  · obtain ⟨rl, hrl, hrowin⟩ := List.mem_flatten.mp h
    obtain ⟨p, hp, rfl⟩ := List.mem_map.mp hrl
    obtain ⟨v, hv, rfl⟩ := List.mem_map.mp hrowin
    rw [find_project_date_changes_eq] at hv
    obtain ⟨i, hi, hvi⟩ := List.mem_filterMap.mp hv
    by_cases hall : (build_issue_values
        (find_issue_dates_changes i.events start_date end_date)).all
        (fun c => c = Cell.str "") = true
    · rw [if_pos hall] at hvi
      simp at hvi
    · rw [if_neg hall] at hvi
      injection hvi with hvi
      subst hvi
      rw [List.length_cons, List.length_cons, build_issue_values_length,
        find_issue_dates_changes_length]

/-- Witness for C10: the header row of an empty-projects table has 17
cells. -/
theorem c10_row_width_witness : report_header.length = 17 :=
  c10_row_width [] 0 0 report_header (by simp [generate_label_report_values])

/-! ## Spreadsheet range (C7) -/

/-- For each in-range index, the end-column letter chosen by
`write_to_gsheet` spans index + 1 columns from column A. -/
theorem ascii_span_lookup :
    ∀ n, n < 26 →
      (ascii_uppercase.toList.get? n).map range_cols_spanned = some (n + 1) := by
  decide

/-- C7 as stated is false on the code: for a 2-column table the computed
range `A1:C1` spans 3 columns, not 2, and for a 26-column table (which the
claim asserts is handled) the column-letter lookup is an out-of-range index
error. -/
theorem c7_counterexample :
    write_to_gsheet_range [[Cell.str "", Cell.str ""]] = some ('C', 1) ∧
    range_cols_spanned 'C' ≠ 2 ∧
    write_to_gsheet_range [List.replicate 26 (Cell.str "")] = none := by
  refine ⟨rfl, by decide, ?_⟩
  rfl

/-- C7 amended: for a table with at least one row and `1 ≤ nb_cols ≤ 25`
the update range is anchored at A1 with end column
`ascii_uppercase[nb_cols]`, so it spans `nb_cols + 1` columns (one more
than the table) and exactly `nb_rows` rows; a column count of 26 or more
makes the column-letter lookup fail (unhandled index error). -/
theorem c7_amended (v0 : List Cell) (rest : List (List Cell))
    (h1 : 1 ≤ v0.length) :
    (v0.length ≤ 25 →
      ∃ c : Char,
        write_to_gsheet_range (v0 :: rest) = some (c, (v0 :: rest).length) ∧
        range_cols_spanned c = v0.length + 1 ∧
        range_rows_spanned (v0 :: rest).length = (v0 :: rest).length) ∧
    (26 ≤ v0.length → write_to_gsheet_range (v0 :: rest) = none) := by
  constructor
  · intro h25
    have hs := ascii_span_lookup v0.length (by omega)
    obtain ⟨c, hc, hcs⟩ := Option.map_eq_some'.mp hs
    refine ⟨c, ?_, hcs, rfl⟩
    show (ascii_uppercase.toList.get? v0.length).map
        (fun c => (c, (v0 :: rest).length)) = some (c, (v0 :: rest).length)
    rw [hc]
    rfl
  · intro h26
    show (ascii_uppercase.toList.get? v0.length).map
        (fun c => (c, (v0 :: rest).length)) = none
    have hlen : ascii_uppercase.toList.length = 26 := rfl
    rw [List.get?_eq_none.mpr (by omega)]
    rfl

/-- Witness for the amended C7: a one-column, one-row table gets range
`A1:B1`, spanning two columns. -/
theorem c7_amended_witness :
    ∃ c : Char, write_to_gsheet_range [[Cell.str ""]] = some (c, 1) ∧
      range_cols_spanned c = 2 ∧ range_rows_spanned 1 = 1 :=
  (c7_amended [Cell.str ""] [] (by decide)).1 (by decide)

/-! ## CLI defaults (C8) -/

/-- C8 as stated is false on the code: `--start-date` does not default to
today (it is 30 days earlier) and `--end-date` does not default to 30 days
before today (it is today). -/
theorem c8_counterexample :
    ¬ (start_date_default 0 = 0 ∧ end_date_default 0 = 0 - 30) := by
  decide

/-- C8 amended: the `--start-date` option defaults to the date 30 days
prior to today and `--end-date` defaults to today's date, so the default
half-open window is the 30 days up to today. -/
theorem c8_amended (today : Int) :
    start_date_default today = today - 30 ∧
    end_date_default today = today ∧
    start_date_default today < end_date_default today ∧
    end_date_default today - start_date_default today = 30 := by
  refine ⟨rfl, rfl, ?_, ?_⟩
  · show today - 30 < today
    omega
  · show today - (today - 30) = 30
    omega

/-! ## Idempotence (C9) -/

/-- C9: the per-issue pipeline (normalize, detect the five transitions,
window-filter, build the row) is a pure function of the raw event list and
the window — the embedding threads no mutable state — so any two runs on
equal inputs produce identical rows, and likewise at project level. -/
theorem c9_idempotence (raw raw' : List RawEvent)
    (sd ed sd' ed' : Timestamp)
    (h : raw = raw') (hsd : sd = sd') (hed : ed = ed') :
    find_issue_dates_changes raw sd ed
        = find_issue_dates_changes raw' sd' ed' ∧
    build_issue_values (find_issue_dates_changes raw sd ed)
        = build_issue_values (find_issue_dates_changes raw' sd' ed') ∧
    (∀ issues : List Issue,
      find_project_date_changes issues sd ed
        = find_project_date_changes issues sd' ed') := by
  subst h
  subst hsd
  subst hed
  exact ⟨rfl, rfl, fun _ => rfl⟩

/-- Witness for C9: two runs on the same concrete event list and window
agree. -/
theorem c9_idempotence_witness :
    find_issue_dates_changes [⟨some "status::Doing", 5⟩] 0 10
      = find_issue_dates_changes [⟨some "status::Doing", 5⟩] 0 10 :=
  (c9_idempotence [⟨some "status::Doing", 5⟩] [⟨some "status::Doing", 5⟩]
    0 10 0 10 rfl rfl rfl).1
